import Mathlib

/-!
Verification development for `apple_health_xml_convert.py` (Simple Apple
Health XML to CSV).  The Python source is shallowly embedded: each function
of the script becomes a Lean definition over explicit data (lines are
`List Char`, XML is an inductive tree, pandas data frames are an explicit
`Table` of optional string cells).  Library calls (ElementTree `iterparse`
with `Element.clear`, pandas `reindex`, `sort_values`, `unique`, `isin`)
are modelled by their observable behaviour, documented at each definition.
-/

/-! ## Basic string utilities

Python strings are sequences of code points; we work with `List Char`
(`Char` is a Unicode scalar value, compared through `Char.toNat`). -/

/-- Does `l` start with `pat`?  (Python `str.startswith`, used to build the
substring test below.) -/
def listStartsWith : List Char → List Char → Bool
  | [], _ => true
  | _ :: _, [] => false
  | p :: ps, c :: cs => p == c && listStartsWith ps cs

/-- Substring containment, Python's `pat in line`. -/
def listContains (pat : List Char) : List Char → Bool
  | [] => pat.isEmpty
  | c :: cs => listStartsWith pat (c :: cs) || listContains pat cs

/-- If `pat` is a prefix of `l`, the remainder of `l` after it. -/
def dropPrefix? : List Char → List Char → Option (List Char)
  | [], l => some l
  | _ :: _, [] => none
  | p :: ps, c :: cs => if p == c then dropPrefix? ps cs else none

/-- Remove every (leftmost, non-overlapping) occurrence of the pattern
`pat`, Python's `s.replace(pat, "")` (also the effect of pandas
`Series.str.replace(pat, "")` with a literal pattern).  Structured with a
fuel argument so that it reduces definitionally; for a non-empty `pat`
every replacement step consumes at least one character, so `l.length`
steps always suffice (the patterns replaced by the script are all
non-empty). -/
def stripSubFuel (pat : List Char) : Nat → List Char → List Char
  | _, [] => []
  | 0, l => l
  | fuel + 1, c :: cs =>
    match dropPrefix? pat (c :: cs) with
    | some rest => stripSubFuel pat fuel rest
    | none => c :: stripSubFuel pat fuel cs

/-- `l.replace(pat, "")` on character lists. -/
def stripSub (pat l : List Char) : List Char :=
  stripSubFuel pat l.length l

/-- `s.replace(pat, "")` on `String`s. -/
def stripSubStr (pat s : String) : String :=
  ⟨stripSub pat.data s.data⟩

/-! ## Text preprocessor (`preprocess_to_temp_file`, `strip_invisible_character`) -/

/-- The invisible control character `\x0b` (code point 11). -/
def invisibleChar : Char := Char.ofNat 11

/-- `strip_invisible_character(line)`: `line.replace("\x0b", "")`, i.e.
every occurrence of the single character `\x0b` is removed and all other
characters are kept unchanged and in order. -/
def strip_invisible_character (line : List Char) : List Char :=
  line.filter (fun c => c ≠ invisibleChar)

/-- `'<!DOCTYPE' in line`. -/
def containsDoctype (line : List Char) : Bool :=
  listContains "<!DOCTYPE".data line

/-- `']>' in line`. -/
def containsDtdEnd (line : List Char) : Bool :=
  listContains "]>".data line

/-- The line loop of `preprocess_to_temp_file`: the boolean is the
`skip_dtd` flag.  For each line: a line containing `<!DOCTYPE` sets the
flag; a line is written (stripped of `\x0b`) only while the flag is false;
after the write/drop decision a line containing `]>` clears the flag. -/
def preprocessLines : Bool → List (List Char) → List (List Char)
  | _, [] => []
  | skip, line :: rest =>
    let skip1 := skip || containsDoctype line
    let out := if skip1 then [] else [strip_invisible_character line]
    let skip2 := if containsDtdEnd line then false else skip1
    out ++ preprocessLines skip2 rest

/-- `preprocess_to_temp_file`, as the transformation it applies to the
sequence of input lines (`skip_dtd` starts out `False`). -/
def preprocess_to_temp_file (lines : List (List Char)) : List (List Char) :=
  preprocessLines false lines

/-! ## Streaming record extractor (the `iterparse` loop of `xml_to_csv`)

An XML element is its attribute mapping (an insertion-ordered association
list, as in a Python `dict` built in attribute declaration order) together
with its direct children. -/

/-- An XML element: attributes in declaration order, children in document
order. -/
inductive XmlElem where
  | mk (attrib : List (String × String)) (children : List XmlElem)

/-- The element's own attribute mapping. -/
def XmlElem.attrib : XmlElem → List (String × String)
  | .mk a _ => a

/-- The element's direct children. -/
def XmlElem.children : XmlElem → List XmlElem
  | .mk _ cs => cs

/-- One flattened record: field name to field value, insertion ordered. -/
abbrev Record := List (String × String)

/-- Python `dict` update with a single key: an existing key keeps its
position and gets the new value, a new key is appended at the end. -/
def dictUpdate (d : Record) (k v : String) : Record :=
  if (d.map Prod.fst).contains k then
    d.map (fun p => if p.1 == k then (k, v) else p)
  else
    d ++ [(k, v)]

/-- The body of the `end`-event handler in `xml_to_csv` (lines 70-76 of the
source): start from the element's own attribute mapping, then for each
direct child (in document order) take `list(child.attrib.values())`; if
there are exactly two values, update the record with
`{values[0]: values[1]}`; otherwise the child contributes nothing.
`childAttribs` is the list of the children's attribute mappings as they
are observed at the moment the handler runs. -/
def recordAtEnd (attrib : Record) (childAttribs : List Record) : Record :=
  childAttribs.foldl
    (fun acc ca =>
      match ca.map Prod.snd with
      | [k, v] => dictUpdate acc k v
      | _ => acc)
    attrib

/-- The attribute mapping of a direct child as observed at its parent's
`end` event in the actual run.  `iterparse` delivers `end` events in
post-order, and the loop calls `elem.clear()` after handling each event;
`Element.clear` empties the element's attribute mapping and drops its
children.  Hence every direct child has already been cleared when the
parent's event fires, and its observed attribute mapping is empty. -/
def clearedAttribOf (_child : XmlElem) : Record := []

mutual
/-- The records appended to `attribute_list` by the `iterparse` loop of
`xml_to_csv`, run on (the subtree of) one element: `end` events arrive in
post-order (all children first, then the element), and at each event the
handler `recordAtEnd` sees the children as already cleared. -/
def iterparseRecords : XmlElem → List Record
  | .mk attrib children =>
    iterparseList children ++ [recordAtEnd attrib (children.map clearedAttribOf)]

/-- `iterparseRecords` over a forest, in document order. -/
def iterparseList : List XmlElem → List Record
  | [] => []
  | e :: es => iterparseRecords e ++ iterparseList es
end

/-- The record that the specification claims is emitted for one element:
the element's own attribute mapping, updated for each direct child that
has exactly two attributes with the synthetic entry
(first attribute value ↦ second attribute value). -/
def claimRecord (e : XmlElem) : Record :=
  recordAtEnd e.attrib (e.children.map XmlElem.attrib)

/-! ## String comparison and stable sorting

Python compares strings lexicographically by code point; pandas compares
object-dtype string columns the same way.  `Ordering`-valued comparison on
`List Char` / `String`: -/

/-- Lexicographic code-point comparison of character lists. -/
def listCmp : List Char → List Char → Ordering
  | [], [] => .eq
  | [], _ :: _ => .lt
  | _ :: _, [] => .gt
  | a :: as, b :: bs =>
    if a.toNat < b.toNat then .lt
    else if b.toNat < a.toNat then .gt
    else listCmp as bs

/-- Lexicographic code-point comparison of strings (Python `<` / `>`). -/
def strCmp (a b : String) : Ordering :=
  listCmp a.data b.data

theorem char_toNat_inj {a b : Char} (h : a.toNat = b.toNat) : a = b := by
  have := Char.ofNat_toNat a
  rw [h, Char.ofNat_toNat] at this
  exact this.symm

theorem listCmp_eq_iff : ∀ {a b : List Char}, listCmp a b = .eq ↔ a = b := by
  intro a
  induction a with
  | nil => intro b; cases b <;> simp [listCmp]
  | cons x xs ih =>
    intro b
    cases b with
    | nil => simp [listCmp]
    | cons y ys =>
      simp only [listCmp]
      rcases Nat.lt_trichotomy x.toNat y.toNat with h1 | h1 | h1
      · rw [if_pos h1]
        constructor
        · intro h; cases h
        · intro h
          injection h with hx hx'
          subst hx
          omega
      · have hxy : x = y := char_toNat_inj h1
        subst hxy
        rw [if_neg (by omega), if_neg (by omega)]
        simp [ih]
      · rw [if_neg (by omega), if_pos h1]
        constructor
        · intro h; cases h
        · intro h
          injection h with hx hx'
          subst hx
          omega

theorem listCmp_swap : ∀ (a b : List Char), listCmp b a = (listCmp a b).swap := by
  intro a
  induction a with
  | nil => intro b; cases b <;> simp [listCmp, Ordering.swap]
  | cons x xs ih =>
    intro b
    cases b with
    | nil => simp [listCmp, Ordering.swap]
    | cons y ys =>
      simp only [listCmp]
      rcases Nat.lt_trichotomy x.toNat y.toNat with h1 | h1 | h1
      · rw [if_pos h1, if_neg (by omega), if_pos h1]
        rfl
      · have hxy : x = y := char_toNat_inj h1
        subst hxy
        rw [if_neg (by omega), if_neg (by omega), if_neg (by omega),
          if_neg (by omega)]
        exact ih ys
      · rw [if_pos h1, if_neg (by omega), if_pos h1]
        rfl

theorem listCmp_lt_trans : ∀ {a b c : List Char},
    listCmp a b = .lt → listCmp b c = .lt → listCmp a c = .lt := by
  intro a
  induction a with
  | nil =>
    intro b c hab hbc
    cases b with
    | nil => cases hab
    | cons y ys =>
      cases c with
      | nil => cases hbc
      | cons z zs => simp [listCmp]
  | cons x xs ih =>
    intro b c hab hbc
    cases b with
    | nil => cases hab
    | cons y ys =>
      cases c with
      | nil => cases hbc
      | cons z zs =>
        simp only [listCmp] at hab hbc ⊢
        rcases Nat.lt_trichotomy x.toNat y.toNat with h1 | h1 | h1
        · rcases Nat.lt_trichotomy y.toNat z.toNat with h2 | h2 | h2
          · rw [if_pos (Nat.lt_trans h1 h2)]
          · have hyz : y = z := char_toNat_inj h2
            subst hyz
            rw [if_pos h1]
          · rw [if_neg (by omega), if_pos h2] at hbc
            cases hbc
        · have hxy : x = y := char_toNat_inj h1
          subst hxy
          rw [if_neg (by omega), if_neg (by omega)] at hab
          rcases Nat.lt_trichotomy x.toNat z.toNat with h2 | h2 | h2
          · rw [if_pos h2]
          · have hxz : x = z := char_toNat_inj h2
            subst hxz
            rw [if_neg (by omega), if_neg (by omega)] at hbc ⊢
            exact ih hab hbc
          · rw [if_neg (by omega), if_pos h2] at hbc
            cases hbc
        · rw [if_neg (by omega), if_pos h1] at hab
          cases hab

/-- Stable insertion step: `a` is placed before the first element `b` with
`le a b`; on ties the inserted (originally earlier) element stays first. -/
def insertSorted (le : α → α → Bool) (a : α) : List α → List α
  | [] => [a]
  | b :: bs => if le a b then a :: b :: bs else b :: insertSorted le a bs

/-- Stable insertion sort with respect to the boolean preorder `le`. -/
def insSort (le : α → α → Bool) : List α → List α
  | [] => []
  | a :: as => insertSorted le a (insSort le as)

theorem insertSorted_perm (le : α → α → Bool) (a : α) :
    ∀ l : List α, (insertSorted le a l).Perm (a :: l) := by
  intro l
  induction l with
  | nil => simp [insertSorted]
  | cons b bs ih =>
    simp only [insertSorted]
    by_cases h : le a b
    · simp [h]
    · simp only [h, Bool.false_eq_true, if_false]
      have h1 : (b :: insertSorted le a bs).Perm (b :: a :: bs) :=
        (List.perm_cons b).mpr ih
      exact h1.trans (List.Perm.swap a b bs)

theorem insSort_perm (le : α → α → Bool) :
    ∀ l : List α, (insSort le l).Perm l := by
  intro l
  induction l with
  | nil => simp [insSort]
  | cons a as ih =>
    simp only [insSort]
    exact (insertSorted_perm le a (insSort le as)).trans ((List.perm_cons a).mpr ih)

theorem mem_insertSorted {le : α → α → Bool} {a x : α} {l : List α} :
    x ∈ insertSorted le a l ↔ x = a ∨ x ∈ l := by
  have := (insertSorted_perm le a l).mem_iff (a := x)
  simpa using this

theorem pairwise_insertSorted {le : α → α → Bool}
    (total : ∀ x y, le x y = true ∨ le y x = true)
    (letrans : ∀ x y z, le x y = true → le y z = true → le x z = true)
    (a : α) :
    ∀ {l : List α}, l.Pairwise (fun x y => le x y = true) →
      (insertSorted le a l).Pairwise (fun x y => le x y = true) := by
  intro l
  induction l with
  | nil => intro _; simp [insertSorted]
  | cons b bs ih =>
    intro hp
    rcases List.pairwise_cons.mp hp with ⟨hb, hbs⟩
    simp only [insertSorted]
    by_cases h : le a b
    · rw [if_pos h]
      refine List.pairwise_cons.mpr ⟨?_, hp⟩
      intro x hx
      rcases List.mem_cons.mp hx with rfl | hx
      · exact h
      · exact letrans _ _ _ h (hb x hx)
    · have hba : le b a = true := by
        rcases total a b with h' | h'
        · exact absurd h' h
        · exact h'
      rw [if_neg h]
      refine List.pairwise_cons.mpr ⟨?_, ih hbs⟩
      intro x hx
      rcases mem_insertSorted.mp hx with rfl | hx
      · exact hba
      · exact hb x hx

theorem pairwise_insSort {le : α → α → Bool}
    (total : ∀ x y, le x y = true ∨ le y x = true)
    (letrans : ∀ x y z, le x y = true → le y z = true → le x z = true) :
    ∀ l : List α, (insSort le l).Pairwise (fun x y => le x y = true) := by
  intro l
  induction l with
  | nil => simp [insSort]
  | cons a as ih =>
    simp only [insSort]
    exact pairwise_insertSorted total letrans a ih

theorem insSort_all_tied {le : α → α → Bool} :
    ∀ {l : List α}, (∀ x ∈ l, ∀ y ∈ l, le x y = true) → insSort le l = l := by
  intro l
  induction l with
  | nil => intro _; simp [insSort]
  | cons a as ih =>
    intro h
    simp only [insSort]
    rw [ih (fun x hx y hy =>
      h x (List.mem_cons_of_mem _ hx) y (List.mem_cons_of_mem _ hy))]
    cases as with
    | nil => simp [insertSorted]
    | cons b bs =>
      simp only [insertSorted]
      rw [if_pos (h a (List.mem_cons_self _ _) b (by simp))]

/-! ## Table model (pandas `DataFrame` of string cells)

A data frame is an ordered column list plus rows of optional string cells
(`none` is pandas `NaN`, the value of a field absent from a record). -/

/-- One table row, aligned with the column list. -/
abbrev Row := List (Option String)

/-- A data frame: ordered columns, rows of optional string cells. -/
structure Table where
  cols : List String
  rows : List Row

/-- Index of the first occurrence of `c`. -/
def idxOf? (c : String) : List String → Option Nat
  | [] => none
  | d :: rest => if d == c then some 0 else (idxOf? c rest).map (· + 1)

/-- Cell of `row` under column `c` of `cols` (`none` when the column does
not exist or the row is too short). -/
def lookupCol (cols : List String) (row : Row) (c : String) : Option String :=
  match idxOf? c cols with
  | some j => (row.get? j).join
  | none => none

/-- `df[c]` for one row: the cell of `row` under column `c` of table `t`. -/
def getCell (t : Table) (row : Row) (c : String) : Option String :=
  lookupCol t.cols row c

/-- First-occurrence deduplication, with the elements already kept in
`seen`. -/
def uniqueFirstAux [DecidableEq α] (seen : List α) : List α → List α
  | [] => []
  | a :: as =>
    if a ∈ seen then uniqueFirstAux seen as
    else a :: uniqueFirstAux (seen ++ [a]) as

/-- First-occurrence deduplication: pandas `Series.unique`. -/
def uniqueFirst [DecidableEq α] (l : List α) : List α :=
  uniqueFirstAux [] l

/-! ## Table normalizer (`xml_to_csv`, lines 81-118)

`pd.DataFrame(attribute_list)` makes one column per distinct record key,
in order of first appearance; a record without a key gets a `NaN` cell. -/

/-- Columns of `pd.DataFrame(attribute_list)`: union of the record keys in
first-appearance order. -/
def unionKeys (recs : List Record) : List String :=
  recs.foldl (fun acc r => acc ++ (r.map Prod.fst).filter (fun k => decide (k ∉ acc))) []

/-- Value of field `k` in record `r` (first binding wins, as in a `dict`). -/
def lookupRec (r : Record) (k : String) : Option String :=
  (r.find? (fun p => p.1 == k)).map Prod.snd

/-- Rows of `pd.DataFrame(attribute_list)`. -/
def dfRows (recs : List Record) : List Row :=
  recs.map (fun r => (unionKeys recs).map (fun c => lookupRec r c))

/-- `health_df.type.str.replace('HKQuantityTypeIdentifier', "")` then
`.str.replace('HKCategoryTypeIdentifier', "")`, on one value; `NaN`
cells stay `NaN`. -/
def cleanTypeVal (v : String) : String :=
  stripSubStr "HKCategoryTypeIdentifier" (stripSubStr "HKQuantityTypeIdentifier" v)

/-- `health_df.columns.str.replace("HKCharacteristicTypeIdentifier", "")`
on one column name. -/
def renameCol (c : String) : String :=
  stripSubStr "HKCharacteristicTypeIdentifier" c

/-- Replace the `i`-th element of a list by `f` of it. -/
def modifyAt (i : Nat) (f : α → α) : List α → List α
  | [] => []
  | a :: as =>
    match i with
    | 0 => f a :: as
    | n + 1 => a :: modifyAt n f as

/-- Position of the `type` column in the data frame built from `recs`. -/
def typeIdx (recs : List Record) : Nat :=
  (unionKeys recs).indexOf "type"

/-- Rows after the `type`-value substitution pass (lines 85-86). -/
def substRows (recs : List Record) : List Row :=
  (dfRows recs).map (modifyAt (typeIdx recs) (Option.map cleanTypeVal))

/-- Column names after the renaming pass (lines 87-88); these are the
`original_cols` of line 91. -/
def renamedCols (recs : List Record) : List String :=
  (unionKeys recs).map renameCol

/-- The fixed priority prefix `shifted_cols` (lines 92-98). -/
def shiftedBase : List String :=
  ["type", "sourceName", "value", "unit", "startDate", "endDate", "creationDate"]

/-- The three conditional metadata columns, in the order the source tests
them (lines 101-111). -/
def loopCols : List String :=
  ["com.loopkit.InsulinKit.MetadataKeyProgrammedTempBasalRate",
   "com.loopkit.InsulinKit.MetadataKeyScheduledBasalRate",
   "com.loudnate.CarbKit.HKMetadataKey.AbsorptionTimeMinutes"]

/-- `shifted_cols` after the three conditional appends: the priority
prefix plus each conditional column that occurs among the (renamed)
data-frame columns, in the fixed test order. -/
def shiftedCols (recs : List Record) : List String :=
  shiftedBase ++ loopCols.filter (fun c => decide (c ∈ renamedCols recs))

/-- The canonical enumeration (first-appearance order, one occurrence
each) of `set(original_cols) - set(shifted_cols)`.  CPython enumerates
this set in an order that depends on the per-process string hash seed; the
normalizer below therefore takes the enumeration order as a parameter
`σ` applied to this canonical list, constrained (in the theorems) to
produce a permutation of it. -/
def remOf (recs : List Record) : List String :=
  uniqueFirst ((renamedCols recs).filter (fun c => decide (c ∉ shiftedCols recs)))

/-- `reordered_cols = shifted_cols + remaining_cols` (line 114), with the
set-enumeration order `σ`. -/
def reorderedCols (σ : List String → List String) (recs : List Record) : List String :=
  shiftedCols recs ++ σ (remOf recs)

/-- One reindexed row (line 115): for each target column take the cell of
the column of that name if it exists, `NaN` otherwise.  `lookupCol`
resolves a label to its first occurrence; pandas `reindex` instead raises
`ValueError` when the source columns contain duplicate labels, so
`xml_to_csv` below guards this reindex with a duplicate-label check and
this lookup is only exercised on duplicate-free column lists, where it
coincides with pandas. -/
def reindexRow (cols1 : List String) (reordered : List String) (row : Row) : Row :=
  reordered.map (fun c => lookupCol cols1 row c)

/-- The rows of the reindexed frame, still in record order (before the
`startDate` sort). -/
def preSortRows (σ : List String → List String) (recs : List Record) : List Row :=
  (substRows recs).map (reindexRow (renamedCols recs) (reorderedCols σ recs))

/-- Ascending comparison of two cells as pandas sorts an object column:
string values lexicographically by code point, `NaN` after every value
(`na_position='last'`). -/
def cmpCellAsc : Option String → Option String → Ordering
  | none, none => .eq
  | none, some _ => .gt
  | some _, none => .lt
  | some x, some y => strCmp x y

/-- Descending comparison of two cells (`ascending=False`): string values
reversed, `NaN` still after every value (`na_position='last'`). -/
def cmpCellDesc : Option String → Option String → Ordering
  | none, none => .eq
  | none, some _ => .gt
  | some _, none => .lt
  | some x, some y => strCmp y x

/-- The row order produced by
`health_df.sort_values(by='startDate', ascending=False)` (line 118):
non-`NaN` keys descending, `NaN` keys after them in unchanged order.
pandas computes an ascending argsort of the reversed non-`NaN` block and
reverses it, so ties keep their original relative order whenever the
underlying `numpy` argsort is stable (it is below `numpy`'s 16-element
insertion-sort threshold; above it the default `quicksort` gives no
guarantee).  Modelled as a stable sort. -/
def startDateLe (startIdx : Nat) (r1 r2 : Row) : Bool :=
  cmpCellDesc ((r1.get? startIdx).join) ((r2.get? startIdx).join) ≠ .gt

/-- `xml_to_csv`, lines 81-118: from the extracted records to the
normalized table.  `health_df.type` (line 85) raises `AttributeError`
when no record has a `type` field; the `reindex` of line 115 raises
`ValueError` when the renaming pass of lines 87-88 has left duplicate
column labels (e.g. record keys `X` and `HKCharacteristicTypeIdentifierX`
both rename to `X`); otherwise the pipeline is: type-value substitution,
column renaming, reindex to the priority order (creating `NaN` columns
for absent priority labels), and the descending `startDate` sort. -/
def xml_to_csv (σ : List String → List String) (recs : List Record) :
    Except String Table :=
  if "type" ∈ unionKeys recs then
    if (renamedCols recs).Nodup then
      let reordered := reorderedCols σ recs
      .ok ⟨reordered,
        insSort (startDateLe (reordered.indexOf "startDate")) (preSortRows σ recs)⟩
    else
      .error "ValueError: cannot reindex on an axis with duplicate labels"
  else
    .error "AttributeError: 'DataFrame' object has no attribute 'type'"

/-! ## Output writer (`save_to_csv` / `DataFrame.to_csv`) -/

/-- Does a field need quoting (contains delimiter, quote or newline)? -/
def csvNeedsQuote (s : String) : Bool :=
  s.data.any (fun c => c == ',' || c == '"' || c == '\n' || c == '\r')

/-- Double every quote character. -/
def csvEscape (s : String) : String :=
  ⟨s.data.foldr (fun c acc => if c == '"' then '"' :: '"' :: acc else c :: acc) []⟩

/-- One serialized CSV field. -/
def csvField (s : String) : String :=
  if csvNeedsQuote s then "\"" ++ csvEscape s ++ "\"" else s

/-- A `NaN` cell serializes as the empty field. -/
def csvCell : Option String → String
  | none => ""
  | some s => csvField s

/-- `df.to_csv(..., index=False)`: header line then one line per row,
comma separated, each line terminated by a newline. -/
def to_csv (t : Table) : String :=
  String.join
    ((String.intercalate "," (t.cols.map csvField) ::
      t.rows.map (fun r => String.intercalate "," (r.map csvCell))).map
      (fun l => l ++ "\n"))

/-! ## Biometrics filter (`extract_biometrics_data`) -/

/-- `df.loc[df["sourceName"] == "RENPHO Health", "type"].unique()`: the
distinct `type` cells of the rows whose `sourceName` cell is the string
`"RENPHO Health"` (a `NaN` cell never equals a string), in first-occurrence
order.  A `NaN` `type` cell of a matching row is kept as a value, as
pandas `unique`/`isin` treat `NaN` as equal to `NaN`. -/
def renphoTypes (t : Table) : List (Option String) :=
  uniqueFirst
    ((t.rows.filter
      (fun r => getCell t r "sourceName" == some "RENPHO Health")).map
      (fun r => getCell t r "type"))

/-- The two-key comparison of
`sort_values(by=["type", "creationDate"], ascending=[True, False])`:
`type` ascending, then `creationDate` descending, `NaN` last per key
(`na_position='last'`). -/
def bioCmp (t : Table) (r1 r2 : Row) : Ordering :=
  (cmpCellAsc (getCell t r1 "type") (getCell t r2 "type")).then
    (cmpCellDesc (getCell t r1 "creationDate") (getCell t r2 "creationDate"))

/-- Boolean preorder of the biometrics sort. -/
def bioLe (t : Table) (r1 r2 : Row) : Bool :=
  bioCmp t r1 r2 ≠ .gt

/-- `extract_biometrics_data(df)`: collect the distinct `type` values of
the `"RENPHO Health"` rows, keep every row whose `type` is among them
(`isin`), and sort by `type` ascending then `creationDate` descending.
Multi-key `sort_values` uses `numpy.lexsort`, which is stable, so ties
keep their original relative order.  A missing `sourceName`, `type` or
`creationDate` column raises a pandas `KeyError`, in that order of use. -/
def extract_biometrics_data (t : Table) : Except String Table :=
  if "sourceName" ∈ t.cols then
    if "type" ∈ t.cols then
      let keep := renphoTypes t
      let filtered := t.rows.filter (fun r => decide (getCell t r "type" ∈ keep))
      if "creationDate" ∈ t.cols then
        .ok ⟨t.cols, insSort (bioLe t) filtered⟩
      else
        .error "KeyError: 'creationDate'"
    else
      .error "KeyError: 'type'"
  else
    .error "KeyError: 'sourceName'"

/-! ## State-passing view of the biometrics filter

`extract_biometrics_data` runs three pandas operations on its argument:
a `.loc` read, a boolean-mask selection, and a `sort_values` call.  The
first two always return fresh objects; `sort_values` mutates the frame it
is called on exactly when `inplace=True` is passed — the source passes no
`inplace` argument here (default `False`; contrast line 118, where
`xml_to_csv` sorts its own frame with `inplace=True`).  The state-passing
embedding makes the frame each operation is called on explicit and
returns its post-call state alongside the result. -/

/-- `frame.sort_values(..., inplace=inplace)`: the pair is (state of
`frame` after the call, returned frame). -/
def sort_values_op (inplace : Bool) (le : Row → Row → Bool) (frame : Table) :
    Table × Table :=
  let sorted : Table := ⟨frame.cols, insSort le frame.rows⟩
  (if inplace then sorted else frame, sorted)

/-- `df.loc[mask, col]` read: the pair is (state of `df` after the call,
selected cells). -/
def loc_read_op (df : Table) (mask : Row → Bool) (col : String) :
    Table × List (Option String) :=
  (df, (df.rows.filter mask).map (fun r => getCell df r col))

/-- `df[mask]` boolean selection: the pair is (state of `df` after the
call, selected sub-frame). -/
def mask_select_op (df : Table) (mask : Row → Bool) : Table × Table :=
  (df, ⟨df.cols, df.rows.filter mask⟩)

/-- `extract_biometrics_data` with the state of its argument threaded
through every pandas call: the pair is (state of `df` after the function
returns, its return value). -/
def extract_biometrics_data_state (df : Table) : Table × Except String Table :=
  if "sourceName" ∈ df.cols then
    if "type" ∈ df.cols then
      let s1 := loc_read_op df (fun r => getCell df r "sourceName" == some "RENPHO Health") "type"
      let keep := uniqueFirst s1.2
      let s2 := mask_select_op s1.1 (fun r => decide (getCell s1.1 r "type" ∈ keep))
      if "creationDate" ∈ df.cols then
        let s3 := sort_values_op false (bioLe s1.1) s2.2
        (s2.1, .ok s3.2)
      else
        (s2.1, .error "KeyError: 'creationDate'")
    else
      (df, .error "KeyError: 'type'")
  else
    (df, .error "KeyError: 'sourceName'")

/-! ## The full pipeline (`main`), up to the dated file names

`main` preprocesses, extracts, normalizes, writes the full table, filters,
and writes the biometrics table.  The bytes written are a function of the
extracted records and of the set-enumeration order `σ`; the current date
only enters the file names. -/

/-- The pair (full-table CSV bytes, biometrics CSV bytes) produced by one
run of the pipeline on the records `recs` with set-enumeration order `σ`. -/
def runPipeline (σ : List String → List String) (recs : List Record) :
    Except String (String × String) :=
  match xml_to_csv σ recs with
  | .error e => .error e
  | .ok t =>
    match extract_biometrics_data t with
    | .error e => .error e
    | .ok b => .ok (to_csv t, to_csv b)

/-- The identity set-enumeration order (the canonical one). -/
def enumId : List String → List String := fun l => l

/-- The reversed set-enumeration order (another admissible hash-seed
outcome). -/
def enumRev : List String → List String := fun l => l.reverse

/-! ## Lemmas about the preprocessor -/

theorem preprocessLines_cons_clean (line : List Char) (rest : List (List Char))
    (hd : containsDoctype line = false) :
    preprocessLines false (line :: rest) =
      strip_invisible_character line :: preprocessLines false rest := by
  simp [preprocessLines, hd]

theorem preprocessLines_cons_skip (line : List Char) (rest : List (List Char))
    (he : containsDtdEnd line = false) :
    preprocessLines true (line :: rest) = preprocessLines true rest := by
  simp [preprocessLines, he]

theorem preprocessLines_cons_skip_end (line : List Char) (rest : List (List Char))
    (he : containsDtdEnd line = true) :
    preprocessLines true (line :: rest) = preprocessLines false rest := by
  simp [preprocessLines, he]

theorem preprocessLines_cons_doct (b : Bool) (line : List Char)
    (rest : List (List Char)) (hd : containsDoctype line = true)
    (he : containsDtdEnd line = false) :
    preprocessLines b (line :: rest) = preprocessLines true rest := by
  simp [preprocessLines, hd, he]

theorem preprocessLines_cons_doct_end (b : Bool) (line : List Char)
    (rest : List (List Char)) (hd : containsDoctype line = true)
    (he : containsDtdEnd line = true) :
    preprocessLines b (line :: rest) = preprocessLines false rest := by
  simp [preprocessLines, hd, he]

theorem preprocessLines_clean_segment :
    ∀ (p : List (List Char)) (xs : List (List Char)),
      (∀ l ∈ p, containsDoctype l = false) →
      preprocessLines false (p ++ xs) =
        p.map strip_invisible_character ++ preprocessLines false xs := by
  intro p
  induction p with
  | nil => intro xs _; rfl
  | cons a as ih =>
    intro xs h
    have ha : containsDoctype a = false := h a (List.mem_cons_self _ _)
    rw [List.cons_append, preprocessLines_cons_clean a _ ha, List.map_cons,
      List.cons_append, ih xs (fun l hl => h l (List.mem_cons_of_mem _ hl))]

theorem preprocessLines_skip_block :
    ∀ (m : List (List Char)) (xs : List (List Char)),
      (∀ l ∈ m, containsDtdEnd l = false) →
      preprocessLines true (m ++ xs) = preprocessLines true xs := by
  intro m
  induction m with
  | nil => intro xs _; rfl
  | cons a as ih =>
    intro xs h
    have ha : containsDtdEnd a = false := h a (List.mem_cons_self _ _)
    rw [List.cons_append, preprocessLines_cons_skip a _ ha,
      ih xs (fun l hl => h l (List.mem_cons_of_mem _ hl))]

/-- C2: a declaration block — from the first line containing `<!DOCTYPE`
through the first subsequent line containing `]>`, both inclusive — is
entirely absent from the preprocessed output; the line after the
end-marker line is processed normally again (first conjunct: block of at
least two lines; second conjunct: start and end marker on the same line);
and with no start marker anywhere, every line is emitted, stripped of the
invisible character (third conjunct). -/
theorem preprocess_elides_doctype_block :
    (∀ (p : List (List Char)) (d : List Char) (m : List (List Char))
        (e : List Char) (rest : List (List Char)),
      (∀ l ∈ p, containsDoctype l = false) →
      containsDoctype d = true →
      (∀ l ∈ d :: m, containsDtdEnd l = false) →
      containsDtdEnd e = true →
      preprocess_to_temp_file (p ++ d :: (m ++ e :: rest)) =
        p.map strip_invisible_character ++ preprocess_to_temp_file rest) ∧
    (∀ (p : List (List Char)) (de : List Char) (rest : List (List Char)),
      (∀ l ∈ p, containsDoctype l = false) →
      containsDoctype de = true →
      containsDtdEnd de = true →
      preprocess_to_temp_file (p ++ de :: rest) =
        p.map strip_invisible_character ++ preprocess_to_temp_file rest) ∧
    (∀ ls : List (List Char),
      (∀ l ∈ ls, containsDoctype l = false) →
      preprocess_to_temp_file ls = ls.map strip_invisible_character) := by
  refine ⟨?_, ?_, ?_⟩
  · intro p d m e rest hp hd hm he
    unfold preprocess_to_temp_file
    rw [preprocessLines_clean_segment p _ hp,
      preprocessLines_cons_doct false d _ hd (hm d (List.mem_cons_self _ _)),
      preprocessLines_skip_block m _ (fun l hl => hm l (List.mem_cons_of_mem _ hl)),
      preprocessLines_cons_skip_end e _ he]
  · intro p de rest hp hd he
    unfold preprocess_to_temp_file
    rw [preprocessLines_clean_segment p _ hp,
      preprocessLines_cons_doct_end false de _ hd he]
  · intro ls h
    unfold preprocess_to_temp_file
    have := preprocessLines_clean_segment ls [] h
    simpa [preprocessLines] using this

/-- Witness for C2: the 5-line declaration block of the specification
scenario (start marker on block line 1, `]>` on block line 5) disappears
from the output and the following line is processed normally. -/
theorem preprocess_elides_doctype_block_witness :
    preprocess_to_temp_file
      (["<Export>".data] ++ "<!DOCTYPE HealthData [".data ::
        (["<!ELEMENT a1>".data, "<!ELEMENT a2>".data, "<!ELEMENT a3>".data] ++
          "]>".data :: ["<Record t=1/>".data])) =
      ["<Export>".data].map strip_invisible_character ++
        preprocess_to_temp_file ["<Record t=1/>".data] :=
  preprocess_elides_doctype_block.1
    ["<Export>".data] "<!DOCTYPE HealthData [".data
    ["<!ELEMENT a1>".data, "<!ELEMENT a2>".data, "<!ELEMENT a3>".data]
    "]>".data ["<Record t=1/>".data]
    (by decide) (by decide) (by decide) (by decide)

/-- C9: a line processed outside a declaration block is emitted with every
occurrence of the invisible character `\x0b` removed and all other
characters unchanged and in order: the emitted line is the stripped line,
which contains no `\x0b`, is a subsequence of the input line, and keeps
every other character with its multiplicity. -/
theorem preprocess_strips_invisible (line : List Char) (rest : List (List Char))
    (hd : containsDoctype line = false) :
    preprocess_to_temp_file (line :: rest) =
      strip_invisible_character line :: preprocess_to_temp_file rest ∧
    invisibleChar ∉ strip_invisible_character line ∧
    (strip_invisible_character line).Sublist line ∧
    (∀ c : Char, c ≠ invisibleChar →
      (strip_invisible_character line).count c = line.count c) := by
  refine ⟨preprocessLines_cons_clean line rest hd, ?_, ?_, ?_⟩
  · intro hmem
    rcases List.mem_filter.mp hmem with ⟨-, hdec⟩
    simp at hdec
  · exact List.filter_sublist line
  · intro c hc
    exact List.count_filter (by simpa using hc)

/-- Witness for C9 at the line `a\x0bb` (with no following lines). -/
theorem preprocess_strips_invisible_witness :
    preprocess_to_temp_file [['a', invisibleChar, 'b']] =
      strip_invisible_character ['a', invisibleChar, 'b'] ::
        preprocess_to_temp_file [] ∧
    invisibleChar ∉ strip_invisible_character ['a', invisibleChar, 'b'] ∧
    (strip_invisible_character ['a', invisibleChar, 'b']).Sublist
      ['a', invisibleChar, 'b'] ∧
    (∀ c : Char, c ≠ invisibleChar →
      (strip_invisible_character ['a', invisibleChar, 'b']).count c =
        (['a', invisibleChar, 'b'] : List Char).count c) :=
  preprocess_strips_invisible ['a', invisibleChar, 'b'] [] (by decide)

/-! ## C1: the fate of the metadata merge -/

/-- A two-attribute metadata child, as in
`<MetadataEntry key="HKMetadataKeyX" value="2"/>`. -/
def c1Child : XmlElem := .mk [("key", "HKMetadataKeyX"), ("value", "2")] []

/-- A parent element with one two-attribute child, as in
`<Record type="T"><MetadataEntry key="HKMetadataKeyX" value="2"/></Record>`. -/
def c1Parent : XmlElem := .mk [("type", "T")] [c1Child]

/-- C1 (failing input): the specified behaviour — parent record =
own attributes plus the synthetic entry `("HKMetadataKeyX", "2")` from the
two-attribute child — is what `claimRecord` computes, but the run emits
the parent record without any synthetic entry, because `elem.clear()` at
the child's earlier `end` event has already emptied the child's attribute
mapping (and the child was itself emitted as a separate record). -/
theorem iterparse_no_metadata_merge :
    iterparseRecords c1Parent =
      [[("key", "HKMetadataKeyX"), ("value", "2")], [("type", "T")]] ∧
    claimRecord c1Parent = [("type", "T"), ("HKMetadataKeyX", "2")] := by
  constructor <;> rfl

/-! ## Lemmas about column lookup and deduplication -/

theorem idxOf?_eq_none {c : String} :
    ∀ {cols : List String}, c ∉ cols → idxOf? c cols = none := by
  intro cols
  induction cols with
  | nil => intro _; rfl
  | cons d rest ih =>
    intro h
    have hd : ¬(d == c) = true := by
      simp only [beq_iff_eq]
      intro hdc
      exact h (hdc ▸ List.mem_cons_self _ _)
    simp only [idxOf?, if_neg hd]
    rw [ih (fun hc => h (List.mem_cons_of_mem _ hc))]
    rfl

theorem lookupCol_not_mem {cols : List String} {row : Row} {c : String}
    (h : c ∉ cols) : lookupCol cols row c = none := by
  simp [lookupCol, idxOf?_eq_none h]

theorem lookupCol_map (f : String → Option String) (c : String) :
    ∀ cols : List String,
      lookupCol cols (cols.map f) c = if c ∈ cols then f c else none := by
  intro cols
  induction cols with
  | nil => simp [lookupCol, idxOf?]
  | cons d rest ih =>
    by_cases hd : d = c
    · subst hd
      simp [lookupCol, idxOf?]
    · have hd' : ¬(d == c) = true := by simpa using hd
      have hstep : lookupCol (d :: rest) ((d :: rest).map f) c =
          lookupCol rest (rest.map f) c := by
        simp only [lookupCol, idxOf?, if_neg hd', List.map_cons]
        cases h : idxOf? c rest with
        | none => rfl
        | some j => rfl
      rw [hstep, ih]
      simp only [List.mem_cons]
      by_cases hc : c ∈ rest
      · rw [if_pos hc, if_pos (Or.inr hc)]
      · rw [if_neg hc, if_neg (by rintro (rfl | h) <;> [exact hd rfl; exact hc h])]

theorem mem_uniqueFirstAux [DecidableEq α] :
    ∀ (l seen : List α) (x : α),
      x ∈ uniqueFirstAux seen l ↔ x ∈ l ∧ x ∉ seen := by
  intro l
  induction l with
  | nil => intro seen x; simp [uniqueFirstAux]
  | cons a as ih =>
    intro seen x
    simp only [uniqueFirstAux]
    by_cases ha : a ∈ seen
    · rw [if_pos ha, ih]
      simp only [List.mem_cons]
      constructor
      · rintro ⟨hx, hs⟩
        exact ⟨Or.inr hx, hs⟩
      · rintro ⟨rfl | hx, hs⟩
        · exact absurd ha hs
        · exact ⟨hx, hs⟩
    · rw [if_neg ha]
      simp only [List.mem_cons, ih, List.mem_append, List.mem_singleton]
      constructor
      · rintro (rfl | ⟨hx, hs⟩)
        · exact ⟨Or.inl rfl, ha⟩
        · refine ⟨Or.inr hx, fun hxs => hs (Or.inl hxs)⟩
      · rintro ⟨rfl | hx, hs⟩
        · exact Or.inl rfl
        · by_cases hxa : x = a
          · exact Or.inl hxa
          · exact Or.inr ⟨hx, by tauto⟩

theorem mem_uniqueFirst [DecidableEq α] {l : List α} {x : α} :
    x ∈ uniqueFirst l ↔ x ∈ l := by
  simpa [uniqueFirst] using mem_uniqueFirstAux l [] x

/-! ## Lemmas about the normalizer -/

theorem xml_to_csv_eq_ok (σ : List String → List String) (recs : List Record)
    (ht : "type" ∈ unionKeys recs) (hnd : (renamedCols recs).Nodup) :
    xml_to_csv σ recs =
      .ok ⟨reorderedCols σ recs,
        insSort (startDateLe ((reorderedCols σ recs).indexOf "startDate"))
          (preSortRows σ recs)⟩ := by
  unfold xml_to_csv
  rw [if_pos ht, if_pos hnd]

/-- In the reordered column list, whose prefix is the fixed priority list,
looking up the `startDate` cell of a reindexed row lands on the reindexed
`startDate` value. -/
theorem get_startDate_reordered (X : List String) (g : String → Option String) :
    (((shiftedBase ++ X).map g).get? (List.indexOf "startDate" (shiftedBase ++ X))).join =
      g "startDate" := by
  rfl

theorem mem_preSortRows {σ : List String → List String} {recs : List Record}
    {row : Row} (h : row ∈ preSortRows σ recs) :
    ∃ orig ∈ substRows recs,
      row = (reorderedCols σ recs).map
        (fun c => lookupCol (renamedCols recs) orig c) := by
  rcases List.mem_map.mp h with ⟨orig, ho, hrow⟩
  exact ⟨orig, ho, hrow.symm⟩

/-! ## C3: a missing `startDate` does not make normalization fail -/

/-- C3 (amended): when no record carries a `startDate` field (with `type`
present so that line 85 does not raise, and the renamed column labels
pairwise distinct so that line 115's reindex does not raise its
duplicate-label `ValueError`), normalization succeeds: `reindex` inserts
a `startDate` column whose cells are all missing, and the descending
sort leaves the rows in their original record order.  No
`SchemaError`-like failure is raised or surfaced. -/
theorem xml_to_csv_ok_without_startDate (σ : List String → List String)
    (recs : List Record)
    (ht : "type" ∈ unionKeys recs)
    (hnd : (renamedCols recs).Nodup)
    (hs : "startDate" ∉ renamedCols recs) :
    xml_to_csv σ recs = .ok ⟨reorderedCols σ recs, preSortRows σ recs⟩ ∧
    "startDate" ∈ reorderedCols σ recs ∧
    ∀ row ∈ preSortRows σ recs,
      lookupCol (reorderedCols σ recs) row "startDate" = none := by
  have hkey : ∀ row ∈ preSortRows σ recs,
      ((row.get? (List.indexOf "startDate" (reorderedCols σ recs))).join) = none := by
    intro row hrow
    rcases mem_preSortRows hrow with ⟨orig, -, rfl⟩
    rw [show reorderedCols σ recs = shiftedBase ++
        (loopCols.filter (fun c => decide (c ∈ renamedCols recs)) ++ σ (remOf recs))
      from by simp [reorderedCols, shiftedCols]]
    rw [get_startDate_reordered]
    exact lookupCol_not_mem hs
  refine ⟨?_, ?_, ?_⟩
  · rw [xml_to_csv_eq_ok σ recs ht hnd]
    have htied : ∀ r1 ∈ preSortRows σ recs, ∀ r2 ∈ preSortRows σ recs,
        startDateLe ((reorderedCols σ recs).indexOf "startDate") r1 r2 = true := by
      intro r1 h1 r2 h2
      unfold startDateLe
      rw [hkey r1 h1, hkey r2 h2]
      decide
    rw [insSort_all_tied htied]
  · simp [reorderedCols, shiftedCols, shiftedBase]
  · intro row hrow
    rcases mem_preSortRows hrow with ⟨orig, horig, hroweq⟩
    subst hroweq
    rw [lookupCol_map]
    rw [if_pos (by simp [reorderedCols, shiftedCols, shiftedBase])]
    exact lookupCol_not_mem hs

/-- The record list `[ {type: T} ]`: a single record with no `startDate`
field. -/
def recsNoStart : List Record := [[("type", "T")]]

/-- C3 (counterexample to the claim as stated): for the concrete
extracted record set `[ {type: T} ]`, `startDate` is absent from every
record, yet normalization returns a table rather than failing. -/
theorem xml_to_csv_missing_startDate_no_error :
    "startDate" ∉ unionKeys recsNoStart ∧
    (xml_to_csv enumId recsNoStart).toOption.isSome = true := by
  constructor
  · decide
  · decide

/-- Witness for the amended C3 at the record set `[ {type: T} ]`. -/
theorem xml_to_csv_ok_without_startDate_witness :
    xml_to_csv enumId recsNoStart =
      .ok ⟨reorderedCols enumId recsNoStart, preSortRows enumId recsNoStart⟩ ∧
    "startDate" ∈ reorderedCols enumId recsNoStart ∧
    ∀ row ∈ preSortRows enumId recsNoStart,
      lookupCol (reorderedCols enumId recsNoStart) row "startDate" = none :=
  xml_to_csv_ok_without_startDate enumId recsNoStart (by decide) (by decide)
    (by decide)

/-! ## C4: the normalized column set and order -/

/-- C4 (amended): the normalized table exists once `type` occurs among
the record keys and the renamed column labels are pairwise distinct
(otherwise line 115's reindex raises its duplicate-label `ValueError`),
and its column list is exactly: the seven fixed priority columns
(whether or not they occur in any record), then each of the three
conditional metadata columns that occurs among the (renamed) record keys
in the fixed test order, then the leftover (renamed) record keys in the
set-enumeration order `σ`.  Hence the column set is the union of the
renamed record keys plus the seven priority columns, and a column that
no record carries holds only missing values. -/
theorem xml_to_csv_column_order (σ : List String → List String)
    (recs : List Record)
    (ht : "type" ∈ unionKeys recs)
    (hnd : (renamedCols recs).Nodup)
    (hσ : (σ (remOf recs)).Perm (remOf recs)) :
    ∃ t : Table, xml_to_csv σ recs = .ok t ∧
      t.cols = shiftedBase ++
        (loopCols.filter (fun c => decide (c ∈ renamedCols recs)) ++ σ (remOf recs)) ∧
      (∀ c : String, c ∈ t.cols ↔ c ∈ shiftedBase ∨ c ∈ renamedCols recs) ∧
      (∀ c : String, c ∈ t.cols → c ∉ renamedCols recs →
        ∀ row ∈ t.rows, lookupCol t.cols row c = none) := by
  refine ⟨⟨reorderedCols σ recs,
    insSort (startDateLe ((reorderedCols σ recs).indexOf "startDate"))
      (preSortRows σ recs)⟩, xml_to_csv_eq_ok σ recs ht hnd, ?_, ?_, ?_⟩
  · simp [reorderedCols, shiftedCols]
  · intro c
    simp only [reorderedCols, shiftedCols, List.append_assoc, List.mem_append,
      List.mem_filter, decide_eq_true_eq]
    constructor
    · rintro (hb | ⟨hl, hr⟩ | hrem)
      · exact Or.inl hb
      · exact Or.inr hr
      · have : c ∈ remOf recs := hσ.mem_iff.mp hrem
        have := mem_uniqueFirst.mp this
        exact Or.inr (List.mem_filter.mp this).1
    · rintro (hb | hr)
      · exact Or.inl hb
      · by_cases hsh : c ∈ shiftedCols recs
        · rcases List.mem_append.mp (show c ∈ shiftedBase ++
              loopCols.filter (fun c => decide (c ∈ renamedCols recs)) from hsh) with
            hb | hl
          · exact Or.inl hb
          · exact Or.inr (Or.inl (by simpa using List.mem_filter.mp hl))
        · refine Or.inr (Or.inr ?_)
          refine hσ.mem_iff.mpr (mem_uniqueFirst.mpr ?_)
          exact List.mem_filter.mpr ⟨hr, by simpa using hsh⟩
  · intro c hc hnc row hrow
    have hrow' : row ∈ preSortRows σ recs :=
      (insSort_perm _ (preSortRows σ recs)).mem_iff.mp hrow
    rcases mem_preSortRows hrow' with ⟨orig, -, rfl⟩
    rw [show (⟨reorderedCols σ recs,
        insSort (startDateLe ((reorderedCols σ recs).indexOf "startDate"))
          (preSortRows σ recs)⟩ : Table).cols = reorderedCols σ recs from rfl] at hc ⊢
    rw [lookupCol_map, if_pos hc]
    exact lookupCol_not_mem hnc

/-- C4 (counterexample to the claim as stated): for the record set
`[ {type: T} ]` the union of record keys is `{type}`, yet the normalized
table has all seven priority columns — e.g. `unit`, which no record
carries. -/
theorem xml_to_csv_columns_not_union :
    (xml_to_csv enumId recsNoStart).toOption.map Table.cols =
      some ["type", "sourceName", "value", "unit", "startDate", "endDate",
        "creationDate"] ∧
    "unit" ∉ unionKeys recsNoStart := by
  constructor
  · decide
  · decide

/-- Witness for the amended C4 at the record set `[ {type: T} ]`. -/
theorem xml_to_csv_column_order_witness :
    ∃ t : Table, xml_to_csv enumId recsNoStart = .ok t ∧
      t.cols = shiftedBase ++
        (loopCols.filter (fun c => decide (c ∈ renamedCols recsNoStart)) ++
          enumId (remOf recsNoStart)) ∧
      (∀ c : String, c ∈ t.cols ↔ c ∈ shiftedBase ∨ c ∈ renamedCols recsNoStart) ∧
      (∀ c : String, c ∈ t.cols → c ∉ renamedCols recsNoStart →
        ∀ row ∈ t.rows, lookupCol t.cols row c = none) :=
  xml_to_csv_column_order enumId recsNoStart (by decide) (by decide) (by decide)

/-! ## Lemmas about the biometrics filter -/

theorem extract_biometrics_eq_ok (t : Table)
    (hs : "sourceName" ∈ t.cols) (hty : "type" ∈ t.cols)
    (hcd : "creationDate" ∈ t.cols) :
    extract_biometrics_data t =
      .ok ⟨t.cols, insSort (bioLe t)
        (t.rows.filter (fun r => decide (getCell t r "type" ∈ renphoTypes t)))⟩ := by
  unfold extract_biometrics_data
  rw [if_pos hs, if_pos hty]
  simp only [if_pos hcd]

/-- C8: when no row's `sourceName` is the literal `"RENPHO Health"`, the
set of types to keep is empty, no row survives the `isin` filter, and the
result is an empty table with the same columns — no error is raised. -/
theorem extract_biometrics_no_renpho (t : Table)
    (hs : "sourceName" ∈ t.cols) (hty : "type" ∈ t.cols)
    (hcd : "creationDate" ∈ t.cols)
    (hnone : ∀ r ∈ t.rows, getCell t r "sourceName" ≠ some "RENPHO Health") :
    extract_biometrics_data t = .ok ⟨t.cols, []⟩ := by
  have hkeep : renphoTypes t = [] := by
    unfold renphoTypes
    have hf : t.rows.filter
        (fun r => getCell t r "sourceName" == some "RENPHO Health") = [] := by
      rw [List.filter_eq_nil]
      intro r hr
      simpa using hnone r hr
    rw [hf]
    rfl
  rw [extract_biometrics_eq_ok t hs hty hcd]
  simp [hkeep, insSort]

/-- A one-row table whose only source is `"Phone"`. -/
def tblPhone : Table :=
  ⟨["type", "sourceName", "value", "unit", "startDate", "endDate", "creationDate"],
   [[some "StepCount", some "Phone", some "5", none,
     some "2024-01-01 00:00:00 -0700", none, some "2024-01-03 00:00:00 -0700"]]⟩

/-- Witness for C8 at a concrete table with no `"RENPHO Health"` row. -/
theorem extract_biometrics_no_renpho_witness :
    extract_biometrics_data tblPhone = .ok ⟨tblPhone.cols, []⟩ :=
  extract_biometrics_no_renpho tblPhone (by decide) (by decide) (by decide)
    (by decide)

/-- C10: the biometrics filter does not modify its input.  In the
state-passing embedding of its three pandas calls (a `.loc` read, a
boolean-mask selection, and a non-`inplace` `sort_values`), the state of
the argument frame after the call equals the frame before it, and the
returned value is the one the pure embedding computes. -/
theorem extract_biometrics_preserves_input (df : Table) :
    (extract_biometrics_data_state df).1 = df ∧
    (extract_biometrics_data_state df).2 = extract_biometrics_data df := by
  constructor
  · unfold extract_biometrics_data_state loc_read_op mask_select_op sort_values_op
    by_cases h1 : "sourceName" ∈ df.cols <;> by_cases h2 : "type" ∈ df.cols <;>
      by_cases h3 : "creationDate" ∈ df.cols <;> simp [h1, h2, h3]
  · unfold extract_biometrics_data_state extract_biometrics_data renphoTypes
      loc_read_op mask_select_op sort_values_op
    by_cases h1 : "sourceName" ∈ df.cols <;> by_cases h2 : "type" ∈ df.cols <;>
      by_cases h3 : "creationDate" ∈ df.cols <;> simp [h1, h2, h3]

/-! ## Comparator lemmas for the two-key biometrics sort -/

theorem ordering_then_swap (o1 o2 : Ordering) :
    (o1.swap).then (o2.swap) = (o1.then o2).swap := by
  cases o1 <;> cases o2 <;> rfl

theorem strCmp_eq_iff {a b : String} : strCmp a b = .eq ↔ a = b := by
  unfold strCmp
  rw [listCmp_eq_iff]
  constructor
  · exact fun h => String.ext h
  · exact fun h => congrArg String.data h

theorem cmpCellAsc_swap (a b : Option String) :
    cmpCellAsc b a = (cmpCellAsc a b).swap := by
  cases a <;> cases b <;> first
    | rfl
    | exact listCmp_swap _ _

theorem cmpCellDesc_swap (a b : Option String) :
    cmpCellDesc b a = (cmpCellDesc a b).swap := by
  cases a <;> cases b <;> first
    | rfl
    | exact listCmp_swap _ _

theorem cmpCellAsc_eq_iff {a b : Option String} :
    cmpCellAsc a b = .eq ↔ a = b := by
  cases a <;> cases b <;>
    simp [cmpCellAsc, strCmp_eq_iff]

theorem cmpCellDesc_eq_iff {a b : Option String} :
    cmpCellDesc a b = .eq ↔ a = b := by
  cases a with
  | none => cases b <;> simp [cmpCellDesc]
  | some x =>
    cases b with
    | none => simp [cmpCellDesc]
    | some y =>
      simp only [cmpCellDesc, Option.some.injEq]
      rw [strCmp_eq_iff]
      exact eq_comm

theorem cmpCellAsc_lt_trans {a b c : Option String}
    (hab : cmpCellAsc a b = .lt) (hbc : cmpCellAsc b c = .lt) :
    cmpCellAsc a c = .lt := by
  cases a <;> cases b <;> cases c <;>
    simp_all [cmpCellAsc, strCmp]
  exact listCmp_lt_trans hab hbc

theorem cmpCellDesc_lt_trans {a b c : Option String}
    (hab : cmpCellDesc a b = .lt) (hbc : cmpCellDesc b c = .lt) :
    cmpCellDesc a c = .lt := by
  cases a <;> cases b <;> cases c <;>
    simp_all [cmpCellDesc, strCmp]
  exact listCmp_lt_trans hbc hab

theorem cmpCellDesc_le_trans {a b c : Option String}
    (hab : cmpCellDesc a b ≠ .gt) (hbc : cmpCellDesc b c ≠ .gt) :
    cmpCellDesc a c ≠ .gt := by
  cases h1 : cmpCellDesc a b with
  | gt => exact absurd h1 hab
  | eq =>
    rw [cmpCellDesc_eq_iff.mp h1]
    exact hbc
  | lt =>
    cases h2 : cmpCellDesc b c with
    | gt => exact absurd h2 hbc
    | eq =>
      rw [← cmpCellDesc_eq_iff.mp h2]
      rw [h1]
      decide
    | lt =>
      rw [cmpCellDesc_lt_trans h1 h2]
      decide

theorem bioCmp_swap (t : Table) (r1 r2 : Row) :
    bioCmp t r2 r1 = (bioCmp t r1 r2).swap := by
  unfold bioCmp
  rw [cmpCellAsc_swap, cmpCellDesc_swap, ordering_then_swap]

theorem bioLe_total (t : Table) :
    ∀ r1 r2 : Row, bioLe t r1 r2 = true ∨ bioLe t r2 r1 = true := by
  intro r1 r2
  unfold bioLe
  by_cases h : bioCmp t r1 r2 = .gt
  · right
    rw [bioCmp_swap, h]
    decide
  · left
    simp [h]

theorem bioLe_trans (t : Table) :
    ∀ r1 r2 r3 : Row, bioLe t r1 r2 = true → bioLe t r2 r3 = true →
      bioLe t r1 r3 = true := by
  intro r1 r2 r3 h12 h23
  unfold bioLe at h12 h23 ⊢
  rw [decide_eq_true_eq] at h12 h23 ⊢
  unfold bioCmp at h12 h23 ⊢
  cases ha12 : cmpCellAsc (getCell t r1 "type") (getCell t r2 "type") with
  | gt => rw [ha12] at h12; exact absurd rfl h12
  | lt =>
    cases ha23 : cmpCellAsc (getCell t r2 "type") (getCell t r3 "type") with
    | gt => rw [ha23] at h23; exact absurd rfl h23
    | lt =>
      rw [cmpCellAsc_lt_trans ha12 ha23]
      exact fun h => nomatch h
    | eq =>
      rw [← cmpCellAsc_eq_iff.mp ha23, ha12]
      exact fun h => nomatch h
  | eq =>
    cases ha23 : cmpCellAsc (getCell t r2 "type") (getCell t r3 "type") with
    | gt => rw [ha23] at h23; exact absurd rfl h23
    | lt =>
      rw [cmpCellAsc_eq_iff.mp ha12, ha23]
      exact fun h => nomatch h
    | eq =>
      rw [ha12] at h12
      rw [ha23] at h23
      rw [cmpCellAsc_eq_iff.mp ha12, ha23]
      simp only [Ordering.then] at h12 h23 ⊢
      exact cmpCellDesc_le_trans h12 h23

/-- Strict lexicographic order on strings (claim language). -/
def strLt (a b : String) : Prop := strCmp a b = .lt

/-- Non-strict lexicographic order on strings (claim language). -/
def strLe (a b : String) : Prop := strCmp a b ≠ .gt

/-- C5: the biometrics table holds exactly the rows (from any source)
whose `type` is among the `type` values of the `"RENPHO Health"` rows,
with the same columns, ordered ascending by `type` and, within equal
`type`, descending by `creationDate`, both compared as literal strings.
Stated for tables whose rows all carry `type` and `creationDate` values
(as the claim compares them as strings). -/
theorem extract_biometrics_filter_sort (t : Table)
    (hs : "sourceName" ∈ t.cols) (hty : "type" ∈ t.cols)
    (hcd : "creationDate" ∈ t.cols)
    (hsome : ∀ r ∈ t.rows,
      (getCell t r "type").isSome ∧ (getCell t r "creationDate").isSome) :
    ∃ b : Table, extract_biometrics_data t = .ok b ∧
      b.cols = t.cols ∧
      b.rows.Perm (t.rows.filter (fun r => decide (getCell t r "type" ∈
        (t.rows.filter
          (fun r' => getCell t r' "sourceName" == some "RENPHO Health")).map
          (fun r' => getCell t r' "type")))) ∧
      b.rows.Pairwise (fun r1 r2 =>
        strLt ((getCell t r1 "type").getD "") ((getCell t r2 "type").getD "") ∨
        (getCell t r1 "type" = getCell t r2 "type" ∧
          strLe ((getCell t r2 "creationDate").getD "")
            ((getCell t r1 "creationDate").getD ""))) := by
  refine ⟨⟨t.cols, insSort (bioLe t)
      (t.rows.filter (fun r => decide (getCell t r "type" ∈ renphoTypes t)))⟩,
    extract_biometrics_eq_ok t hs hty hcd, rfl, ?_, ?_⟩
  · have hperm := insSort_perm (bioLe t)
      (t.rows.filter (fun r => decide (getCell t r "type" ∈ renphoTypes t)))
    have hfe : t.rows.filter
        (fun r => decide (getCell t r "type" ∈ renphoTypes t)) =
        t.rows.filter (fun r => decide (getCell t r "type" ∈
          (t.rows.filter
            (fun r' => getCell t r' "sourceName" == some "RENPHO Health")).map
            (fun r' => getCell t r' "type"))) := by
      apply List.filter_congr
      intro r _
      apply decide_eq_decide.mpr
      unfold renphoTypes
      exact mem_uniqueFirst
    exact hfe ▸ hperm
  · have hpw := pairwise_insSort (bioLe_total t) (bioLe_trans t)
      (t.rows.filter (fun r => decide (getCell t r "type" ∈ renphoTypes t)))
    refine List.Pairwise.imp_of_mem ?_ hpw
    intro r1 r2 h1 h2 hle
    have h1' : r1 ∈ t.rows :=
      List.mem_of_mem_filter ((insSort_perm _ _).mem_iff.mp h1)
    have h2' : r2 ∈ t.rows :=
      List.mem_of_mem_filter ((insSort_perm _ _).mem_iff.mp h2)
    obtain ⟨hty1, hcd1⟩ := hsome r1 h1'
    obtain ⟨hty2, hcd2⟩ := hsome r2 h2'
    obtain ⟨ty1, hty1eq⟩ := Option.isSome_iff_exists.mp hty1
    obtain ⟨ty2, hty2eq⟩ := Option.isSome_iff_exists.mp hty2
    obtain ⟨cd1, hcd1eq⟩ := Option.isSome_iff_exists.mp hcd1
    obtain ⟨cd2, hcd2eq⟩ := Option.isSome_iff_exists.mp hcd2
    have hcmp : bioCmp t r1 r2 ≠ .gt := of_decide_eq_true hle
    unfold bioCmp at hcmp
    rw [hty1eq, hty2eq, hcd1eq, hcd2eq] at hcmp
    rw [hty1eq, hty2eq, hcd1eq, hcd2eq]
    simp only [Option.getD_some]
    cases hc : strCmp ty1 ty2 with
    | lt => exact Or.inl hc
    | gt =>
      exfalso
      apply hcmp
      rw [show cmpCellAsc (some ty1) (some ty2) = strCmp ty1 ty2 from rfl, hc]
      rfl
    | eq =>
      rw [show cmpCellAsc (some ty1) (some ty2) = strCmp ty1 ty2 from rfl, hc]
        at hcmp
      exact Or.inr ⟨congrArg some (strCmp_eq_iff.mp hc), hcmp⟩

/-- A three-row table: one `"RENPHO Health"` row of type `Weight`, one
`Phone` row of the same type with a later creation date, and one `Phone`
row of an unrelated type. -/
def tblBio : Table :=
  ⟨["type", "sourceName", "value", "unit", "startDate", "endDate", "creationDate"],
   [[some "Weight", some "RENPHO Health", some "70", some "kg",
     some "2024-01-01 08:00:00 -0700", none, some "2024-01-01 08:00:00 -0700"],
    [some "StepCount", some "Phone", some "12", none,
     some "2024-01-02 08:00:00 -0700", none, some "2024-01-02 08:00:00 -0700"],
    [some "Weight", some "Phone", some "71", some "kg",
     some "2024-01-03 08:00:00 -0700", none, some "2024-01-03 08:00:00 -0700"]]⟩

/-- Witness for C5 at the table `tblBio`. -/
theorem extract_biometrics_filter_sort_witness :
    ∃ b : Table, extract_biometrics_data tblBio = .ok b ∧
      b.cols = tblBio.cols ∧
      b.rows.Perm (tblBio.rows.filter (fun r => decide (getCell tblBio r "type" ∈
        (tblBio.rows.filter
          (fun r' => getCell tblBio r' "sourceName" == some "RENPHO Health")).map
          (fun r' => getCell tblBio r' "type")))) ∧
      b.rows.Pairwise (fun r1 r2 =>
        strLt ((getCell tblBio r1 "type").getD "")
          ((getCell tblBio r2 "type").getD "") ∨
        (getCell tblBio r1 "type" = getCell tblBio r2 "type" ∧
          strLe ((getCell tblBio r2 "creationDate").getD "")
            ((getCell tblBio r1 "creationDate").getD ""))) :=
  extract_biometrics_filter_sort tblBio (by decide) (by decide) (by decide)
    (by decide)

/-! ## C7: determinism of the pipeline across runs -/

/-- C7 (amended): the bytes written are a function of the extracted
records and of the order in which the run enumerates the residual column
set `set(original_cols) - set(shifted_cols)`.  Two runs that enumerate
that set identically produce byte-identical files; in particular, when
the residual set has at most one element, any two runs (with any
admissible enumerations) produce byte-identical files.  (CPython's
per-process string-hash randomization means two separate processes need
not agree on that enumeration when two or more residual columns exist —
see the accompanying counterexample.) -/
theorem runPipeline_deterministic (recs : List Record)
    (σ1 σ2 : List String → List String) :
    (σ1 (remOf recs) = σ2 (remOf recs) →
      runPipeline σ1 recs = runPipeline σ2 recs) ∧
    ((remOf recs).length ≤ 1 →
      (σ1 (remOf recs)).Perm (remOf recs) →
      (σ2 (remOf recs)).Perm (remOf recs) →
      runPipeline σ1 recs = runPipeline σ2 recs) := by
  have hcongr : σ1 (remOf recs) = σ2 (remOf recs) →
      runPipeline σ1 recs = runPipeline σ2 recs := by
    intro h
    have h1 : reorderedCols σ1 recs = reorderedCols σ2 recs := by
      unfold reorderedCols
      rw [h]
    have h2 : preSortRows σ1 recs = preSortRows σ2 recs := by
      unfold preSortRows
      rw [h1]
    have h3 : xml_to_csv σ1 recs = xml_to_csv σ2 recs := by
      unfold xml_to_csv
      rw [h1, h2]
    unfold runPipeline
    rw [h3]
  refine ⟨hcongr, fun hlen hp1 hp2 => hcongr ?_⟩
  cases hrem : remOf recs with
  | nil =>
    rw [hrem] at hp1 hp2
    rw [List.perm_nil.mp hp1, List.perm_nil.mp hp2]
  | cons a as =>
    cases as with
    | nil =>
      rw [hrem] at hp1 hp2
      rw [List.perm_singleton.mp hp1, List.perm_singleton.mp hp2]
    | cons b bs =>
      rw [hrem] at hlen
      simp at hlen

/-- A record set leaving two residual columns (`aaa`, `bbb`) after the
priority prefix. -/
def recsTwoExtra : List Record :=
  [[("type", "T"), ("startDate", "2024-01-01 00:00:00 -0700"),
    ("aaa", "1"), ("bbb", "2")]]

/-- C7 (counterexample to the claim as stated): two runs of the pipeline
on the same records, both enumerating the residual column set
admissibly (each enumeration is a permutation of it) but in different
orders — as two CPython processes with different hash seeds may — write
different bytes for the full table. -/
theorem runPipeline_differs_across_enumerations :
    (enumId (remOf recsTwoExtra)).Perm (remOf recsTwoExtra) ∧
    (enumRev (remOf recsTwoExtra)).Perm (remOf recsTwoExtra) ∧
    (runPipeline enumId recsTwoExtra).toOption.map Prod.fst ≠
      (runPipeline enumRev recsTwoExtra).toOption.map Prod.fst := by
  refine ⟨by decide, by decide, by decide⟩

/-- Witness for the amended C7: on a record set with no residual columns
the two enumerations agree and the pipeline output is identical. -/
theorem runPipeline_deterministic_witness :
    runPipeline enumId recsNoStart = runPipeline enumRev recsNoStart :=
  (runPipeline_deterministic recsNoStart enumId enumRev).2
    (by decide) (by decide) (by decide)

/-! ## The duplicate-label error path of the reindex -/

/-- A record whose keys `X` and `HKCharacteristicTypeIdentifierX` both
rename to `X` in the renaming pass of lines 87-88. -/
def recsDupRename : List Record :=
  [[("type", "T"), ("X", "1"), ("HKCharacteristicTypeIdentifierX", "2")]]

/-- The duplicate-label error path is live: when the renaming pass leaves
two columns with the same label, `xml_to_csv` returns the `ValueError`
that line 115's reindex raises, not a table. -/
theorem xml_to_csv_duplicate_labels_error :
    xml_to_csv enumId recsDupRename =
      .error "ValueError: cannot reindex on an axis with duplicate labels" := by
  rfl
